import Mathlib

/-!
Verification of the numerical core of the `auditanalytics` repository.

The Python sources are shallowly embedded: floating-point numbers are
modelled as real numbers, `numpy`/`scipy` primitives that are pure
arithmetic (`log`, `sqrt`, `ceil`, rounding, boolean masking, medians,
percentiles) are translated directly, and the external t- and chi-square
distribution routines of `scipy.stats` (which are opaque library calls,
not code of this repository) are abstracted as function parameters.
Python functions that raise `ValueError` are modelled as `Except String`.
-/

namespace AuditAnalytics

/-! ## Core sampling module (`auditanalytics/core/sampling.py`) -/

namespace Core

/-- Embedding of `core/sampling.py::discovery_sample_size`.
Validates both arguments against the open interval `(0,1)` (rate first,
as in the source), then returns `ceil(log(1 - confidence) / log(1 - intolerable_rate))`. -/
noncomputable def discovery_sample_size (confidence intolerable_rate : ℝ) : Except String ℤ :=
  if intolerable_rate ≤ 0 ∨ 1 ≤ intolerable_rate then
    Except.error "intolerable_rate must be between 0 and 1 (exclusive)"
  else if confidence ≤ 0 ∨ 1 ≤ confidence then
    Except.error "confidence must be between 0 and 1 (exclusive)"
  else
    Except.ok ⌈Real.log (1 - confidence) / Real.log (1 - intolerable_rate)⌉

/-- The three alternative-hypothesis modes of the power search. -/
inductive Alternative
  | greater
  | less
  | twoSided
deriving DecidableEq

/-- Abstraction of `scipy.stats.t`: a quantile function `ppf p df` and a
non-central cumulative distribution function `cdf x df ncp`.  These are
external library routines, opaque to this repository's code. -/
structure TDist where
  ppf : ℝ → ℕ → ℝ
  cdf : ℝ → ℕ → ℝ → ℝ

/-- One step of the loop body shared by `attribute_sample_size` and
`attribute_sample_size_amount`: the achieved power at candidate sample
size `n`, computed from the critical t-value for the chosen alternative
and the non-centrality parameter `effect_size * sqrt(n)`. -/
noncomputable def calcPower (td : TDist) (alt : Alternative) (sig_level effect_size : ℝ)
    (n : ℕ) : ℝ :=
  let df := n - 1
  let t_alpha :=
    match alt with
    | .greater => td.ppf (1 - sig_level) df
    | .less => td.ppf sig_level df
    | .twoSided => td.ppf (1 - sig_level / 2) df
  let ncp := effect_size * Real.sqrt n
  match alt with
  | .greater => 1 - td.cdf t_alpha df ncp
  | .less => td.cdf t_alpha df ncp
  | .twoSided => 1 - td.cdf t_alpha df ncp + td.cdf (-t_alpha) df ncp

/-- The `while n < 10000` search of the source, as fuel recursion: starting
from candidate `n`, return the first candidate whose achieved power meets
the target, or `n + fuel` when the fuel (the remaining loop iterations)
runs out. -/
noncomputable def powerSearchGo (f : ℕ → ℝ) (power : ℝ) : ℕ → ℕ → ℕ
  | 0, n => n
  | fuel + 1, n => if power ≤ f n then n else powerSearchGo f power fuel (n + 1)

/-- The full power search of the source: `n` starts at 10 and the loop
runs while `n < 10000`, i.e. for at most 9990 iterations. -/
noncomputable def powerSearch (f : ℕ → ℝ) (power : ℝ) : ℕ :=
  powerSearchGo f power 9990 10

/-- Embedding of `core/sampling.py::attribute_sample_size` (occurrence form).
`sigma_rate` is optional and defaults to `0.3 * size`; the effect size is
`(delta_rate * size) / sigma_rate` and the result is the power search's output. -/
noncomputable def attribute_sample_size (td : TDist) (size : ℝ) (delta_rate : ℝ)
    (sigma_rate : Option ℝ) (sig_level power : ℝ) (alt : Alternative) : ℕ :=
  let sr := sigma_rate.getD (0.3 * size)
  let delta := delta_rate * size
  let effect_size := delta / sr
  powerSearch (calcPower td alt sig_level effect_size) power

/-- Embedding of `core/sampling.py::attribute_sample_size_amount`.
`total_amount` is accepted but (as in the source) never used in the
computation; the effect size is `(delta_rate * mean_transaction) / sigma`. -/
noncomputable def attribute_sample_size_amount (td : TDist) (total_amount mean_transaction : ℝ)
    (delta_rate sigma sig_level power : ℝ) (alt : Alternative) : ℕ :=
  let delta := delta_rate * mean_transaction
  let effect_size := delta / sigma
  powerSearch (calcPower td alt sig_level effect_size) power

/-- Embedding of `core/sampling.py::acceptance_sample_size`: the source
forwards all arguments to `attribute_sample_size_amount`, with the account
balance passed in the total-amount position. -/
noncomputable def acceptance_sample_size (td : TDist) (account_balance mean_transaction : ℝ)
    (delta_rate sigma sig_level power : ℝ) (alt : Alternative) : ℕ :=
  attribute_sample_size_amount td account_balance mean_transaction
    delta_rate sigma sig_level power alt

end Core

/-! ## Utility sampling module (`auditanalytics/utils/sampling.py`) -/

namespace Utils

/-- Embedding of `utils/sampling.py::discovery_sample_size`.  Unlike the
core variant, the source performs no argument validation: it directly
returns `ceil(log(1 - confidence) / log(1 - intolerable_error_rate))`. -/
noncomputable def discovery_sample_size (confidence intolerable_error_rate : ℝ) : ℤ :=
  ⌈Real.log (1 - confidence) / Real.log (1 - intolerable_error_rate)⌉

/-- Embedding of `utils/sampling.py::monetary_unit_sample_size`.
Risk factor `-log(1 - confidence)`, inflated by `(1 + expected_error_rate)`
when the expected error rate is positive; result is
`ceil(population_value * risk_factor / tolerable_error)`. -/
noncomputable def monetary_unit_sample_size (population_value tolerable_error : ℝ)
    (confidence expected_error_rate : ℝ) : ℤ :=
  let risk_factor := -Real.log (1 - confidence)
  let risk_factor := if expected_error_rate > 0
    then risk_factor * (1 + expected_error_rate) else risk_factor
  ⌈population_value * risk_factor / tolerable_error⌉

/-- `np.round`: round to nearest with ties to even (Mathlib's `round`
rounds ties up, so ties are redirected through `2 * round (x / 2)`). -/
noncomputable def npRound (x : ℝ) : ℤ :=
  if Int.fract x = 1 / 2 then 2 * round (x / 2) else round x

/-- Inner loop of `np.argmax` on an integer list: scan the remaining list
`l` keeping the best value `b`, its index `bi`, and the index `i` of the
next element; a later element replaces the best only if strictly larger,
so the first maximum wins, as in numpy. -/
def argmaxGo : List ℤ → ℤ → ℕ → ℕ → ℕ
  | [], _, bi, _ => bi
  | y :: t, b, bi, i => if b < y then argmaxGo t y i (i + 1) else argmaxGo t b bi (i + 1)

/-- `np.argmax` on an integer list: index of the first largest element
(0 on the empty list, which numpy instead rejects). -/
def argmaxIdx : List ℤ → ℕ
  | [] => 0
  | x :: t => argmaxGo t x 0 1

/-- The Neyman weights `size_i * sqrt(variance_i)` of
`utils/sampling.py::stratified_sample_allocation`. -/
noncomputable def neymanWeights (strata_sizes strata_variances : List ℝ) : List ℝ :=
  (strata_sizes.zip (strata_variances.map Real.sqrt)).map (fun p => p.1 * p.2)

/-- Embedding of `utils/sampling.py::stratified_sample_allocation`:
normalize the Neyman weights, scale by the total sample size, round each
entry with `np.round`, and add the whole rounding residual to the first
largest allocation when the residual is nonzero. -/
noncomputable def stratified_sample_allocation (strata_sizes strata_variances : List ℝ)
    (total_sample_size : ℤ) : List ℤ :=
  let weights := neymanWeights strata_sizes strata_variances
  let wsum := weights.sum
  let normw := weights.map (· / wsum)
  let alloc := normw.map (fun w => npRound (w * (total_sample_size : ℝ)))
  let diff := total_sample_size - alloc.sum
  if diff = 0 then alloc
  else
    let idx := argmaxIdx alloc
    alloc.set idx (alloc.getD idx 0 + diff)

/-- A numeric input value of `benford_analysis`, by its numpy string
rendering.  An integer-dtype entry `n` renders as `str(n)` (its decimal
digits, any sign removed by the source's cleaning).  A float-dtype entry
in positional notation renders as integer part, decimal point and
fractional digits — e.g. `0.5` as `"0.5"` and `12.0` as `"12.0"` — so it
carries a sign flag, an integer part, and the rendered fractional digits.
(Floats whose `str()` uses scientific notation, such as `1e-05`, make the
source's `int()` digit conversion raise and are outside this model.) -/
inductive NumValue
  | intVal (n : ℤ)
  | floatVal (neg : Bool) (ip : ℕ) (frac : List (Fin 10))

/-- The positivity filter `data[data > 0]` of the source: an integer is
kept when `0 < n`; a float is kept when it is unsigned and its integer
part or some fractional digit is nonzero. -/
def NumValue.isPos : NumValue → Bool
  | .intVal n => decide (0 < n)
  | .floatVal neg ip frac =>
      !neg && (decide (0 < ip) || frac.any (fun d => decide (d ≠ 0)))

/-- Decimal digit string of a natural number, most significant digit
first; `0` renders as `"0"`, as `str` does. -/
def natDigitsStr (n : ℕ) : List ℕ :=
  if n = 0 then [0] else (Nat.digits 10 n).reverse

/-- The cleaned digit string of a rendered value: its `str()` rendering
with the decimal point and any sign removed
(`val.replace('.', '').replace('-', '')`).  For `0.5` this is `"05"`:
the leading cleaned digit of a positive float below 1 is `0`. -/
def cleanedDigits : NumValue → List ℕ
  | .intVal n => natDigitsStr n.natAbs
  | .floatVal _ ip frac => natDigitsStr ip ++ frac.map Fin.val

/-- The digit extraction of `utils/sampling.py::benford_analysis`: keep
the positive values, clean each rendering to its digit string, skip
values with fewer than `digit` digits, and take the digit at position
`digit` (1-based). -/
def benfordDigits (data : List NumValue) (digit : ℕ) : List ℕ :=
  (data.filter NumValue.isPos).filterMap (fun v =>
    let ds := cleanedDigits v
    if digit ≤ ds.length then some (ds.getD (digit - 1) 0) else none)

/-- The digit domain of `benford_analysis`: `1..9` in leading-digit mode,
`0..9` for any other position. -/
def possibleDigits (digit : ℕ) : List ℕ :=
  if digit = 1 then [1, 2, 3, 4, 5, 6, 7, 8, 9] else [0, 1, 2, 3, 4, 5, 6, 7, 8, 9]

/-- The expected frequencies of `benford_analysis`: `log10(1 + 1/d)` per
digit in leading-digit mode, uniform `0.1` otherwise. -/
noncomputable def benfordExpectedFreqs (digit : ℕ) : List ℝ :=
  if digit = 1 then (possibleDigits 1).map (fun d => Real.logb 10 (1 + 1 / (d : ℝ)))
  else List.replicate 10 (1 / 10 : ℝ)

/-- The per-digit table and aggregate statistics returned by
`benford_analysis` (the columns of the result DataFrame plus its
`chi2_statistic` and `p_value` attributes). -/
structure BenfordResult where
  digitsDomain : List ℕ
  observedFreq : List ℝ
  expectedFreq : List ℝ
  observedCount : List ℕ
  expectedCount : List ℝ
  chi2Components : List ℝ
  chi2Statistic : ℝ
  pValue : ℝ

/-- Embedding of `utils/sampling.py::benford_analysis`.
`chi2cdf stat df` abstracts the external `scipy.stats.chi2.cdf`. -/
noncomputable def benford_analysis (chi2cdf : ℝ → ℕ → ℝ) (data : List NumValue) (digit : ℕ) :
    BenfordResult :=
  let digits := benfordDigits data digit
  let dom := possibleDigits digit
  let expected_freq := benfordExpectedFreqs digit
  let observed_counts := dom.map (fun d => digits.count d)
  let total := observed_counts.sum
  let observed_freq := observed_counts.map (fun c => (c : ℝ) / (total : ℝ))
  let expected_counts := expected_freq.map (fun f => f * (total : ℝ))
  let chi2_components :=
    (observed_counts.zip expected_counts).map (fun p => ((p.1 : ℝ) - p.2) ^ 2 / p.2)
  let chi2_stat := chi2_components.sum
  { digitsDomain := dom
    observedFreq := observed_freq
    expectedFreq := expected_freq
    observedCount := observed_counts
    expectedCount := expected_counts
    chi2Components := chi2_components
    chi2Statistic := chi2_stat
    pValue := 1 - chi2cdf chi2_stat (dom.length - 1) }

end Utils

/-! ## Statistics module (`auditanalytics/core/statistics.py`) -/

namespace Statistics

/-- Result record of `foot_and_agree`: the `agrees` and `difference`
entries are present in the returned dictionary only when an expected
total was supplied. -/
structure AgreementResult where
  total : ℝ
  agrees : Option Bool
  difference : Option ℝ

/-- Embedding of `core/statistics.py::foot_and_agree` on a numeric
series: sum the values; when an expected total is supplied, also report
the signed difference and agreement within absolute tolerance `1e-10`. -/
noncomputable def foot_and_agree (values : List ℝ) (expected_total : Option ℝ) :
    AgreementResult :=
  let total := values.sum
  match expected_total with
  | none => { total := total, agrees := none, difference := none }
  | some e =>
    let difference := total - e
    { total := total
      agrees := some (if |difference| < 1e-10 then true else false)
      difference := some difference }

/-- IEEE-style comparison `|num / den| > t` as numpy evaluates it on
floats: when `den ≠ 0` this is the real comparison; when `den = 0`,
numpy yields `±inf` for `num ≠ 0` (so the comparison with any finite
threshold is true) and `nan` for `num = 0` (so it is false).  Real-number
division cannot express the `den = 0` cases, so they are modelled
explicitly. -/
noncomputable def floatAbsDivGT (num den t : ℝ) : Bool :=
  if den = 0 then (if num = 0 then false else true)
  else if |num / den| > t then true else false

/-- numpy boolean-mask selection `l[mask]` (mask and list of equal
length). -/
def applyMask {α : Type} : List Bool → List α → List α
  | b :: m, a :: l => if b then a :: applyMask m l else applyMask m l
  | _, _ => []

/-- The original positions of the present (non-missing) entries of a
sequence: this is `data.dropna().index` for a pandas Series carrying the
default positional index. -/
def origIndices {α : Type} : List (Option α) → List ℕ
  | [] => []
  | none :: t => (origIndices t).map (· + 1)
  | some _ :: t => 0 :: (origIndices t).map (· + 1)

/-- `np.median`: middle element of the sorted list, or the mean of the
two middle elements for even length. -/
noncomputable def npMedian (l : List ℝ) : ℝ :=
  let s := l.insertionSort (· ≤ ·)
  if l.length % 2 = 1 then s.getD (l.length / 2) 0
  else (s.getD (l.length / 2 - 1) 0 + s.getD (l.length / 2) 0) / 2

/-- `np.percentile` with the default linear interpolation: position
`h = (n-1) * q / 100` in the sorted list, interpolated between the
neighbouring order statistics. -/
noncomputable def npPercentile (l : List ℝ) (q : ℝ) : ℝ :=
  let s := l.insertionSort (· ≤ ·)
  let h := ((l.length : ℝ) - 1) * q / 100
  let lo := ⌊h⌋.toNat
  let hi := ⌈h⌉.toNat
  s.getD lo 0 + (h - ⌊h⌋) * (s.getD hi 0 - s.getD lo 0)

/-- Mean of a list (`np.mean`). -/
noncomputable def listMean (l : List ℝ) : ℝ := l.sum / (l.length : ℝ)

/-- Population standard deviation (`scipy.stats.zscore` uses `ddof = 0`). -/
noncomputable def popStd (l : List ℝ) : ℝ :=
  Real.sqrt ((l.map (fun x => (x - listMean l) ^ 2)).sum / (l.length : ℝ))

/-- The three outlier-detection policies of `detect_outliers`. -/
inductive OutlierMethod
  | iqr
  | zscore
  | modified_zscore
deriving DecidableEq

/-- The boolean outlier mask computed by `detect_outliers` over the
missing-filtered values, one branch per method, faithful to the source:
IQR bounds `[q1 - t*iqr, q3 + t*iqr]`; z-score `|x - mean| / std > t`;
modified z-score `|0.6745 * (x - median)| / mad > t` (the divisions by a
possibly zero denominator follow numpy float semantics, see
`floatAbsDivGT`). -/
noncomputable def outlierMask (method : OutlierMethod) (threshold : ℝ) (values : List ℝ) :
    List Bool :=
  match method with
  | .iqr =>
    let q1 := npPercentile values 25
    let q3 := npPercentile values 75
    let iqrv := q3 - q1
    let lower_bound := q1 - threshold * iqrv
    let upper_bound := q3 + threshold * iqrv
    values.map (fun x => if x < lower_bound ∨ x > upper_bound then true else false)
  | .zscore =>
    let m := listMean values
    let s := popStd values
    values.map (fun x => floatAbsDivGT (x - m) s threshold)
  | .modified_zscore =>
    let med := npMedian values
    let mad := npMedian (values.map (fun x => |x - med|))
    values.map (fun x => floatAbsDivGT ((6745 / 10000) * (x - med)) mad threshold)

/-- Result record of `detect_outliers`. -/
structure OutlierReport where
  method : OutlierMethod
  n_outliers : ℕ
  outlier_indices : List ℕ
  outlier_values : List ℝ

/-- Embedding of `core/statistics.py::detect_outliers` for a pandas
Series input: `values = data.dropna().values`, `index = data.dropna().index`
(the original positions), then the method's mask selects indices and
values. -/
noncomputable def detect_outliers_series (data : List (Option ℝ))
    (method : OutlierMethod) (threshold : ℝ) : OutlierReport :=
  let values := data.filterMap id
  let index := origIndices data
  let mask := outlierMask method threshold values
  { method := method
    n_outliers := mask.count true
    outlier_indices := applyMask mask index
    outlier_values := applyMask mask values }

/-- Embedding of `core/statistics.py::detect_outliers` for an ndarray
input: `values = data[~np.isnan(data)]` but
`index = np.arange(len(values))` — positions in the *filtered* array. -/
noncomputable def detect_outliers_array (data : List (Option ℝ))
    (method : OutlierMethod) (threshold : ℝ) : OutlierReport :=
  let values := data.filterMap id
  let index := List.range values.length
  let mask := outlierMask method threshold values
  { method := method
    n_outliers := mask.count true
    outlier_indices := applyMask mask index
    outlier_values := applyMask mask values }

end Statistics

/-! ## Helper lemmas for the power search -/

/-- If the power target is never met, the search consumes all fuel and
returns the start plus the fuel. -/
theorem powerSearchGo_of_never (f : ℕ → ℝ) (p : ℝ) (h : ∀ m, ¬ p ≤ f m) :
    ∀ fuel n, Core.powerSearchGo f p fuel n = n + fuel := by
  intro fuel
  induction fuel with
  | zero => intro n; rfl
  | succ k ih =>
    intro n
    rw [Core.powerSearchGo, if_neg (h n), ih]
    omega

/-- The search returns a value below `start + fuel` exactly when some
candidate in the scanned range meets the power target. -/
theorem powerSearchGo_lt_iff (f : ℕ → ℝ) (p : ℝ) :
    ∀ fuel n, Core.powerSearchGo f p fuel n < n + fuel ↔
      ∃ m, n ≤ m ∧ m < n + fuel ∧ p ≤ f m := by
  intro fuel
  induction fuel with
  | zero =>
    intro n
    simp only [Core.powerSearchGo, Nat.add_zero]
    constructor
    · intro h; omega
    · rintro ⟨m, h1, h2, _⟩; omega
  | succ k ih =>
    intro n
    by_cases h : p ≤ f n
    · rw [Core.powerSearchGo, if_pos h]
      constructor
      · intro _; exact ⟨n, le_refl n, by omega, h⟩
      · intro _; omega
    · have heq : n + (k + 1) = (n + 1) + k := by omega
      rw [Core.powerSearchGo, if_neg h, heq, ih (n + 1)]
      constructor
      · rintro ⟨m, h1, h2, h3⟩; exact ⟨m, by omega, by omega, h3⟩
      · rintro ⟨m, h1, h2, h3⟩
        refine ⟨m, ?_, by omega, h3⟩
        rcases Nat.eq_or_lt_of_le h1 with rfl | hlt
        · exact absurd h3 h
        · omega

/-! ## Helper lemmas for stratified allocation -/

/-- The argmax scan returns an index below `i + t.length` whenever its
running best index is below `i`. -/
theorem argmaxGo_lt (t : List ℤ) : ∀ (b : ℤ) (bi i : ℕ), bi < i →
    Utils.argmaxGo t b bi i < i + t.length := by
  induction t with
  | nil =>
    intro b bi i h
    have hg : Utils.argmaxGo [] b bi i = bi := rfl
    rw [hg, List.length_nil]
    omega
  | cons y s ih =>
    intro b bi i h
    rw [Utils.argmaxGo]
    by_cases hy : b < y
    · rw [if_pos hy, List.length_cons]
      exact (ih y i (i + 1) (by omega)).trans_le (by omega)
    · rw [if_neg hy, List.length_cons]
      exact (ih b bi (i + 1) (by omega)).trans_le (by omega)

/-- `argmaxIdx` of a nonempty list is a valid index. -/
theorem argmaxIdx_lt (l : List ℤ) (h : l ≠ []) : Utils.argmaxIdx l < l.length := by
  cases l with
  | nil => exact absurd rfl h
  | cons x t =>
    have := argmaxGo_lt t x 0 1 (by omega)
    simpa [Utils.argmaxIdx, Nat.add_comm] using this

/-- Adding `d` to the entry at a valid index adds `d` to the sum. -/
theorem sum_set_getD_add (l : List ℤ) : ∀ (i : ℕ) (d : ℤ), i < l.length →
    (l.set i (l.getD i 0 + d)).sum = l.sum + d := by
  induction l with
  | nil => intro i d h; simp at h
  | cons x t ih =>
    intro i d h
    cases i with
    | zero => simp [List.getD]; ring
    | succ j =>
      have hj : j < t.length := by simpa using h
      simp only [List.set, List.sum_cons, List.getD_cons_succ]
      rw [ih j d hj]
      ring

/-! ## Claim theorems -/

/-- Claim C3 (amended): for equal-length nonempty strata inputs with at
least one positive Neyman weight, `stratified_sample_allocation` returns
one integer per stratum and the entries sum exactly to the total sample
size (entries may however be negative, see the counterexample). -/
theorem stratified_allocation_sum (sizes vars : List ℝ) (total : ℤ)
    (hlen : sizes.length = vars.length) (hne : 1 ≤ sizes.length)
    (hpos : ∃ w ∈ Utils.neymanWeights sizes vars, 0 < w) :
    (Utils.stratified_sample_allocation sizes vars total).length = sizes.length ∧
    (Utils.stratified_sample_allocation sizes vars total).sum = total := by
  clear hpos
  simp only [Utils.stratified_sample_allocation]
  set ws := Utils.neymanWeights sizes vars with hws
  set alloc := (ws.map (· / ws.sum)).map
    (fun w => Utils.npRound (w * (total : ℝ))) with halloc
  have hlenA : alloc.length = sizes.length := by
    simp [halloc, hws, Utils.neymanWeights, hlen]
  by_cases hd : total - alloc.sum = 0
  · rw [if_pos hd]
    exact ⟨hlenA, by omega⟩
  · rw [if_neg hd]
    have hne' : alloc ≠ [] := by
      intro h0
      rw [h0] at hlenA
      simp at hlenA
      omega
    have hidx := argmaxIdx_lt alloc hne'
    refine ⟨by simpa using hlenA, ?_⟩
    rw [sum_set_getD_add alloc _ _ hidx]
    omega

/-- Witness for the amended C3 at a single stratum of size 1, variance 1,
total 5. -/
theorem stratified_allocation_sum_witness :
    (([(1 : ℝ)].length = [(1 : ℝ)].length ∧ 1 ≤ [(1 : ℝ)].length ∧
      ∃ w ∈ Utils.neymanWeights [(1 : ℝ)] [(1 : ℝ)], 0 < w) ∧
    (Utils.stratified_sample_allocation [(1 : ℝ)] [(1 : ℝ)] 5).length = [(1 : ℝ)].length ∧
    (Utils.stratified_sample_allocation [(1 : ℝ)] [(1 : ℝ)] 5).sum = 5) :=
  ⟨⟨rfl, by norm_num, ⟨1 * Real.sqrt 1, by simp [Utils.neymanWeights], by
      rw [Real.sqrt_one]; norm_num⟩⟩,
   stratified_allocation_sum [(1 : ℝ)] [(1 : ℝ)] 5 rfl (by norm_num)
     ⟨1 * Real.sqrt 1, by simp [Utils.neymanWeights], by rw [Real.sqrt_one]; norm_num⟩⟩

/-- Counterexample to C3 as stated: five identical strata and total
sample size 3 produce the allocation `[-1, 1, 1, 1, 1]` — the entries sum
to 3, but the reconciliation step drives the first entry negative. -/
theorem stratified_allocation_negative_entry :
    Utils.stratified_sample_allocation [1, 1, 1, 1, 1] [1, 1, 1, 1, 1] 3 =
      [-1, 1, 1, 1, 1] := by
  have hnw : Utils.neymanWeights [1, 1, 1, 1, 1] [1, 1, 1, 1, 1] = [1, 1, 1, 1, 1] := by
    simp [Utils.neymanWeights, Real.sqrt_one, List.zip]
  have hround : Utils.npRound ((3 : ℝ) / 5) = 1 := by
    rw [Utils.npRound, if_neg, round_eq]
    · norm_num [Int.floor_eq_iff]
    · rw [Int.fract_eq_self.mpr (by norm_num)]
      norm_num
  simp only [Utils.stratified_sample_allocation, hnw]
  norm_num
  rw [hround]
  norm_num [Utils.argmaxIdx, Utils.argmaxGo]

/-- Pointwise sums of natural-valued maps split. -/
theorem sum_map_add_nat (f g : ℕ → ℕ) (D : List ℕ) :
    (D.map (fun d => f d + g d)).sum = (D.map f).sum + (D.map g).sum := by
  induction D with
  | nil => rfl
  | cons x t ih => simp only [List.map_cons, List.sum_cons, ih]; omega

/-- Over a duplicate-free list containing `x`, the indicator of `x` sums
to exactly 1. -/
theorem sum_map_indicator (D : List ℕ) (x : ℕ) (hD : D.Nodup) (hx : x ∈ D) :
    (D.map (fun d => if x = d then 1 else 0)).sum = 1 := by
  induction D with
  | nil => simp at hx
  | cons a t ih =>
    rcases List.mem_cons.mp hx with rfl | hmem
    · simp only [List.map_cons, List.sum_cons, if_pos rfl]
      have hz : (t.map (fun d => if x = d then 1 else 0)).sum = 0 := by
        apply List.sum_eq_zero
        intro y hy
        rcases List.mem_map.mp hy with ⟨d, hd, heq⟩
        have hne : x ≠ d := fun he => (List.nodup_cons.mp hD).1 (he ▸ hd)
        rw [← heq, if_neg hne]
      rw [hz]
      simp
    · have ha : x ≠ a := by
        intro he
        exact (List.nodup_cons.mp hD).1 (he ▸ hmem)
      simp only [List.map_cons, List.sum_cons, if_neg ha]
      rw [ih (List.nodup_cons.mp hD).2 hmem]

/-- The indicator of a value not in the list sums to 0. -/
theorem sum_map_indicator_zero (D : List ℕ) (x : ℕ) (hx : x ∉ D) :
    (D.map (fun d => if x = d then 1 else 0)).sum = 0 := by
  apply List.sum_eq_zero
  intro y hy
  rcases List.mem_map.mp hy with ⟨d, hd, heq⟩
  have hne : x ≠ d := fun he => hx (by rw [he]; exact hd)
  rw [← heq, if_neg hne]

/-- Over a duplicate-free digit domain, the per-digit counts of `l` sum
to the number of elements of `l` that lie in the domain. -/
theorem sum_counts_eq_filter_length (D : List ℕ) (hD : D.Nodup) :
    ∀ l : List ℕ, (D.map (fun d => l.count d)).sum =
      (l.filter (fun x => decide (x ∈ D))).length := by
  intro l
  induction l with
  | nil => simp
  | cons x t ih =>
    have hcount : ∀ d : ℕ, (x :: t).count d = t.count d + (if x = d then 1 else 0) := by
      intro d
      simp [List.count_cons]
    have hsplit : (D.map (fun d => (x :: t).count d)).sum =
        (D.map (fun d => t.count d)).sum +
          (D.map (fun d => if x = d then 1 else 0)).sum := by
      calc (D.map (fun d => (x :: t).count d)).sum
          = (D.map (fun d => t.count d + (if x = d then 1 else 0))).sum := by
            simp only [hcount]
        _ = _ := sum_map_add_nat _ _ D
    by_cases hx : x ∈ D
    · rw [hsplit, sum_map_indicator D x hD hx, ih]
      simp [List.filter_cons, hx]
    · rw [hsplit, sum_map_indicator_zero D x hx, ih]
      simp [List.filter_cons, hx]

/-- The length of a guarded `filterMap` equals the length of the
corresponding `filter`. -/
theorem length_filterMap_ite {α β : Type} (p : α → Prop) [DecidablePred p] (f : α → β)
    (l : List α) :
    (l.filterMap (fun a => if p a then some (f a) else none)).length =
      (l.filter (fun a => decide (p a))).length := by
  induction l with
  | nil => rfl
  | cons x t ih => by_cases h : p x <;> simp [h, ih]

/-- The length of a guarded `filterMap` followed by a filter on the
produced values equals the length of one combined filter on the
inputs. -/
theorem length_filter_filterMap_ite {α β : Type} (p : α → Prop) [DecidablePred p]
    (f : α → β) (q : β → Bool) (l : List α) :
    ((l.filterMap (fun a => if p a then some (f a) else none)).filter q).length =
      (l.filter (fun a => decide (p a) && q (f a))).length := by
  induction l with
  | nil => rfl
  | cons x t ih =>
    by_cases hp : p x
    · by_cases hq : q (f x)
      · simp [List.filterMap_cons, List.filter_cons, hp, hq, ih]
      · simp [List.filterMap_cons, List.filter_cons, hp, hq, ih]
    · simp [List.filterMap_cons, hp, ih]

/-- Every digit of a rendered natural number is below 10. -/
theorem natDigitsStr_lt_ten (n : ℕ) : ∀ x ∈ Utils.natDigitsStr n, x < 10 := by
  intro x hx
  rw [Utils.natDigitsStr] at hx
  by_cases h : n = 0
  · rw [if_pos h] at hx
    simp at hx
    omega
  · rw [if_neg h] at hx
    exact Nat.digits_lt_base (by norm_num) (List.mem_reverse.mp hx)

/-- Every cleaned digit of any rendered value is below 10. -/
theorem cleanedDigits_lt_ten (v : Utils.NumValue) :
    ∀ x ∈ Utils.cleanedDigits v, x < 10 := by
  intro x hx
  cases v with
  | intVal n =>
    simp only [Utils.cleanedDigits] at hx
    exact natDigitsStr_lt_ten _ x hx
  | floatVal neg ip frac =>
    simp only [Utils.cleanedDigits] at hx
    rcases List.mem_append.mp hx with h | h
    · exact natDigitsStr_lt_ten ip x h
    · rcases List.mem_map.mp h with ⟨d, _, rfl⟩
      exact d.isLt

/-- Every extracted Benford digit is below 10 (but for the leading
position it need not be nonzero: a float below 1 renders with a leading
cleaned digit 0). -/
theorem benfordDigits_lt_ten (data : List Utils.NumValue) (digit : ℕ) :
    ∀ x ∈ Utils.benfordDigits data digit, x < 10 := by
  intro x hx
  simp only [Utils.benfordDigits] at hx
  rcases List.mem_filterMap.mp hx with ⟨v, hv, hfv⟩
  by_cases hlen : digit ≤ (Utils.cleanedDigits v).length
  swap
  · rw [if_neg hlen] at hfv
    exact absurd hfv (by simp)
  rw [if_pos hlen] at hfv
  have hxval : x = (Utils.cleanedDigits v).getD (digit - 1) 0 :=
    (Option.some_inj.mp hfv).symm
  by_cases hr : digit - 1 < (Utils.cleanedDigits v).length
  · have hmem : (Utils.cleanedDigits v).getD (digit - 1) 0 ∈ Utils.cleanedDigits v := by
      rw [List.getD_eq_get _ 0 hr]
      exact List.get_mem _ _ _
    rw [hxval]
    exact cleanedDigits_lt_ten v _ hmem
  · rw [hxval, List.getD_eq_default _ _ (by omega)]
    norm_num

/-- Claim C6 (amended): for every digit position other than the leading
one, the Benford analyzer's observed counts sum exactly to the number of
qualifying values — positive entries whose cleaned decimal rendering has
at least `digit` digits.  For the leading position the counts sum only
over the qualifying values whose cleaned rendering starts with a nonzero
digit — a positive float below 1 renders as `"0..."` and is silently
dropped from the counts — and there the digit domain is `1..9` and the
expected frequencies sum exactly to 1 (hence within any floating
tolerance). -/
theorem benford_invariants (chi2cdf : ℝ → ℕ → ℝ) (data : List Utils.NumValue)
    (digit : ℕ) (hd : 1 ≤ digit) :
    (digit ≠ 1 →
      (Utils.benford_analysis chi2cdf data digit).observedCount.sum =
        ((data.filter Utils.NumValue.isPos).filter
          (fun v => decide (digit ≤ (Utils.cleanedDigits v).length))).length) ∧
    (digit = 1 →
      (Utils.benford_analysis chi2cdf data digit).observedCount.sum =
        ((data.filter Utils.NumValue.isPos).filter
          (fun v => decide (1 ≤ (Utils.cleanedDigits v).length ∧
            (Utils.cleanedDigits v).getD 0 0 ≠ 0))).length ∧
      (Utils.benford_analysis chi2cdf data digit).digitsDomain =
        [1, 2, 3, 4, 5, 6, 7, 8, 9] ∧
      (Utils.benford_analysis chi2cdf data digit).expectedFreq.sum = 1) := by
  clear hd
  constructor
  · intro h1
    have hnodup : (Utils.possibleDigits digit).Nodup := by
      rw [Utils.possibleDigits, if_neg h1]
      decide
    have hsum := sum_counts_eq_filter_length (Utils.possibleDigits digit) hnodup
      (Utils.benfordDigits data digit)
    have hall : (Utils.benfordDigits data digit).filter
        (fun x => decide (x ∈ Utils.possibleDigits digit)) =
        Utils.benfordDigits data digit := by
      apply List.filter_eq_self.mpr
      intro a ha
      have hlt := benfordDigits_lt_ten data digit a ha
      rw [Utils.possibleDigits, if_neg h1]
      simp only [List.mem_cons, List.not_mem_nil, or_false, decide_eq_true_eq]
      omega
    have hlen : (Utils.benfordDigits data digit).length =
        ((data.filter Utils.NumValue.isPos).filter
          (fun v => decide (digit ≤ (Utils.cleanedDigits v).length))).length := by
      simp only [Utils.benfordDigits]
      exact length_filterMap_ite
        (fun v => digit ≤ (Utils.cleanedDigits v).length)
        (fun v => (Utils.cleanedDigits v).getD (digit - 1) 0) _
    have hchain := hsum.trans (by rw [hall, hlen])
    rw [Utils.benford_analysis]
    simpa using hchain
  · intro h1
    subst h1
    refine ⟨?_, ?_, ?_⟩
    · have hnodup : (Utils.possibleDigits 1).Nodup := by
        rw [Utils.possibleDigits]
        decide
      have hsum := sum_counts_eq_filter_length (Utils.possibleDigits 1) hnodup
        (Utils.benfordDigits data 1)
      have hfe : (Utils.benfordDigits data 1).filter
          (fun x => decide (x ∈ Utils.possibleDigits 1)) =
          (Utils.benfordDigits data 1).filter (fun x => decide (x ≠ 0)) := by
        apply List.filter_congr
        intro a ha
        have hlt := benfordDigits_lt_ten data 1 a ha
        apply decide_eq_decide.mpr
        rw [Utils.possibleDigits, if_pos rfl]
        simp only [List.mem_cons, List.not_mem_nil, or_false]
        omega
      have hq : ((Utils.benfordDigits data 1).filter (fun x => decide (x ≠ 0))).length =
          ((data.filter Utils.NumValue.isPos).filter
            (fun v => decide (1 ≤ (Utils.cleanedDigits v).length) &&
              decide ((Utils.cleanedDigits v).getD (1 - 1) 0 ≠ 0))).length := by
        simp only [Utils.benfordDigits]
        exact length_filter_filterMap_ite
          (fun v => 1 ≤ (Utils.cleanedDigits v).length)
          (fun v => (Utils.cleanedDigits v).getD (1 - 1) 0)
          (fun d => decide (d ≠ 0)) _
      have hchain : ((Utils.possibleDigits 1).map
          (fun d => (Utils.benfordDigits data 1).count d)).sum =
          ((data.filter Utils.NumValue.isPos).filter
            (fun v => decide (1 ≤ (Utils.cleanedDigits v).length) &&
              decide ((Utils.cleanedDigits v).getD (1 - 1) 0 ≠ 0))).length := by
        rw [hsum, hfe]
        exact hq
      rw [Utils.benford_analysis]
      simpa using hchain
    · rw [Utils.benford_analysis]
      simp [Utils.possibleDigits]
    · rw [Utils.benford_analysis]
      simp only [Utils.benfordExpectedFreqs, if_pos rfl, Utils.possibleDigits]
      norm_num
      have l2 : Real.logb 10 2 = Real.logb 10 2 := rfl
      have l3 : Real.logb 10 (3 / 2 : ℝ) = Real.logb 10 3 - Real.logb 10 2 :=
        Real.logb_div (by norm_num) (by norm_num)
      have l4 : Real.logb 10 (4 / 3 : ℝ) = Real.logb 10 4 - Real.logb 10 3 :=
        Real.logb_div (by norm_num) (by norm_num)
      have l5 : Real.logb 10 (5 / 4 : ℝ) = Real.logb 10 5 - Real.logb 10 4 :=
        Real.logb_div (by norm_num) (by norm_num)
      have l6 : Real.logb 10 (6 / 5 : ℝ) = Real.logb 10 6 - Real.logb 10 5 :=
        Real.logb_div (by norm_num) (by norm_num)
      have l7 : Real.logb 10 (7 / 6 : ℝ) = Real.logb 10 7 - Real.logb 10 6 :=
        Real.logb_div (by norm_num) (by norm_num)
      have l8 : Real.logb 10 (8 / 7 : ℝ) = Real.logb 10 8 - Real.logb 10 7 :=
        Real.logb_div (by norm_num) (by norm_num)
      have l9 : Real.logb 10 (9 / 8 : ℝ) = Real.logb 10 9 - Real.logb 10 8 :=
        Real.logb_div (by norm_num) (by norm_num)
      have l10 : Real.logb 10 (10 / 9 : ℝ) = Real.logb 10 10 - Real.logb 10 9 :=
        Real.logb_div (by norm_num) (by norm_num)
      have hself : Real.logb 10 10 = 1 := Real.logb_self_eq_one (by norm_num)
      rw [l3, l4, l5, l6, l7, l8, l9, l10]
      linarith [hself]

/-- Witness for the amended C6 at the data set `[12, 0.5]` (one integer,
one float rendered `"0.5"`) with the leading digit position. -/
theorem benford_invariants_witness :
    1 ≤ 1 ∧
    ((1 ≠ 1 →
      (Utils.benford_analysis (fun _ _ => 0)
          [Utils.NumValue.intVal 12, Utils.NumValue.floatVal false 0 [5]]
          1).observedCount.sum =
        ((([Utils.NumValue.intVal 12, Utils.NumValue.floatVal false 0 [5]] :
            List Utils.NumValue).filter Utils.NumValue.isPos).filter
          (fun v => decide (1 ≤ (Utils.cleanedDigits v).length))).length) ∧
    (1 = 1 →
      (Utils.benford_analysis (fun _ _ => 0)
          [Utils.NumValue.intVal 12, Utils.NumValue.floatVal false 0 [5]]
          1).observedCount.sum =
        ((([Utils.NumValue.intVal 12, Utils.NumValue.floatVal false 0 [5]] :
            List Utils.NumValue).filter Utils.NumValue.isPos).filter
          (fun v => decide (1 ≤ (Utils.cleanedDigits v).length ∧
            (Utils.cleanedDigits v).getD 0 0 ≠ 0))).length ∧
      (Utils.benford_analysis (fun _ _ => 0)
          [Utils.NumValue.intVal 12, Utils.NumValue.floatVal false 0 [5]]
          1).digitsDomain = [1, 2, 3, 4, 5, 6, 7, 8, 9] ∧
      (Utils.benford_analysis (fun _ _ => 0)
          [Utils.NumValue.intVal 12, Utils.NumValue.floatVal false 0 [5]]
          1).expectedFreq.sum = 1)) :=
  ⟨le_refl 1,
   benford_invariants (fun _ _ => 0)
     [Utils.NumValue.intVal 12, Utils.NumValue.floatVal false 0 [5]] 1 (le_refl 1)⟩

/-- Counterexample to C6 as stated: on the float input `[0.5]` — rendered
`"0.5"`, cleaned to the digit string `"05"` — with the leading digit
position, the extracted leading digit is 0, outside the `1..9` domain, so
the observed counts sum to 0 although there is exactly 1 qualifying
value. -/
theorem benford_float_leading_zero_gap :
    (Utils.benford_analysis (fun _ _ => 0)
      [Utils.NumValue.floatVal false 0 [5]] 1).observedCount.sum = 0 ∧
    ((([Utils.NumValue.floatVal false 0 [5]] : List Utils.NumValue).filter
        Utils.NumValue.isPos).filter
      (fun v => decide (1 ≤ (Utils.cleanedDigits v).length))).length = 1 := by
  constructor
  · rfl
  · rfl

/-- Claim C7: `foot_and_agree` on a numeric series reports
`agrees = true` exactly when the computed total is within `1e-10` of the
expected total, reports the exact signed difference, and omits both
fields when no expected total is supplied. -/
theorem foot_and_agree_spec (values : List ℝ) (e : ℝ) :
    ((Statistics.foot_and_agree values (some e)).agrees = some true ↔
      |(Statistics.foot_and_agree values (some e)).total - e| < 1e-10) ∧
    (Statistics.foot_and_agree values (some e)).difference =
      some ((Statistics.foot_and_agree values (some e)).total - e) ∧
    (Statistics.foot_and_agree values none).agrees = none ∧
    (Statistics.foot_and_agree values none).difference = none := by
  refine ⟨?_, rfl, rfl, rfl⟩
  simp only [Statistics.foot_and_agree]
  by_cases h : |values.sum - e| < 1e-10
  · simp [h]
  · simp [h]

/-- Claim C1: for every confidence and intolerable rate strictly inside
`(0,1)`, both implementations of `discovery_sample_size` return
`ceil(log(1 - confidence) / log(1 - intolerable_rate))`, and the core
implementation returns 59 at `(0.95, 0.05)`. -/
theorem discovery_sample_size_formula (c r : ℝ)
    (hc0 : 0 < c) (hc1 : c < 1) (hr0 : 0 < r) (hr1 : r < 1) :
    Core.discovery_sample_size c r =
      Except.ok ⌈Real.log (1 - c) / Real.log (1 - r)⌉ ∧
    Utils.discovery_sample_size c r = ⌈Real.log (1 - c) / Real.log (1 - r)⌉ ∧
    Core.discovery_sample_size (19 / 20) (1 / 20) = Except.ok 59 := by
  refine ⟨?_, rfl, ?_⟩
  · rw [Core.discovery_sample_size, if_neg (by push_neg; constructor <;> linarith),
      if_neg (by push_neg; constructor <;> linarith)]
  · rw [Core.discovery_sample_size, if_neg (by push_neg; norm_num),
      if_neg (by push_neg; norm_num)]
    have h1 : (1 : ℝ) - 19 / 20 = (20 : ℝ)⁻¹ := by norm_num
    have h2 : (1 : ℝ) - 1 / 20 = ((20 : ℝ) / 19)⁻¹ := by norm_num
    rw [h1, h2, Real.log_inv, Real.log_inv, neg_div_neg_eq]
    have hb : (0 : ℝ) < Real.log (20 / 19) := Real.log_pos (by norm_num)
    have hceil : ⌈Real.log 20 / Real.log (20 / 19)⌉ = 59 := by
      rw [Int.ceil_eq_iff]
      constructor
      · have : ((59 : ℤ) : ℝ) - 1 = 58 := by norm_num
        rw [this, lt_div_iff hb]
        have h58 : (58 : ℝ) * Real.log (20 / 19) = Real.log (((20 : ℝ) / 19) ^ (58 : ℕ)) := by
          rw [Real.log_pow]; norm_num
        rw [h58, Real.log_lt_log_iff (by positivity) (by norm_num)]
        norm_num
      · rw [div_le_iff hb]
        have h59 : ((59 : ℤ) : ℝ) * Real.log (20 / 19) =
            Real.log (((20 : ℝ) / 19) ^ (59 : ℕ)) := by
          rw [Real.log_pow]; norm_num
        rw [h59, Real.log_le_log_iff (by norm_num) (by positivity)]
        norm_num
    rw [hceil]

/-- Witness for C1 at `confidence = 0.95`, `intolerable_rate = 0.05`. -/
theorem discovery_sample_size_formula_witness :
    ((0 : ℝ) < 19 / 20 ∧ (19 : ℝ) / 20 < 1 ∧ (0 : ℝ) < 1 / 20 ∧ (1 : ℝ) / 20 < 1) ∧
    Core.discovery_sample_size (19 / 20) (1 / 20) = Except.ok 59 :=
  ⟨by norm_num,
   (discovery_sample_size_formula (19 / 20) (1 / 20) (by norm_num) (by norm_num)
      (by norm_num) (by norm_num)).2.2⟩

/-- Claim C2: `acceptance_sample_size` returns exactly the value of
`attribute_sample_size_amount` at the same arguments, with the account
balance substituted for the total amount — for every t-distribution
backend and every parameter tuple. -/
theorem acceptance_eq_attribute_amount (td : Core.TDist)
    (balance mean_transaction delta_rate sigma sig_level power : ℝ)
    (alt : Core.Alternative) :
    Core.acceptance_sample_size td balance mean_transaction
        delta_rate sigma sig_level power alt =
      Core.attribute_sample_size_amount td balance mean_transaction
        delta_rate sigma sig_level power alt := rfl

/-- Claim C4 (amended): the power search returns a value below the cap
10000 exactly when some candidate `n` in `[10, 10000)` achieves the power
target; equivalently, a capped (non-converged) run returns exactly the
bare integer 10000, with no separate indicator, and is distinguishable
from a converged run only because every converged run returns less than
10000.  Stated for both the occurrence and the amount calculator. -/
theorem attribute_sample_size_converged_iff (td : Core.TDist)
    (size total_amount mean_transaction delta_rate sigma sig_level power : ℝ)
    (sigma_rate : Option ℝ) (alt : Core.Alternative) :
    (Core.attribute_sample_size td size delta_rate sigma_rate sig_level power alt < 10000 ↔
      ∃ n, 10 ≤ n ∧ n < 10000 ∧
        power ≤ Core.calcPower td alt sig_level
          (delta_rate * size / sigma_rate.getD (0.3 * size)) n) ∧
    (Core.attribute_sample_size_amount td total_amount mean_transaction
        delta_rate sigma sig_level power alt < 10000 ↔
      ∃ n, 10 ≤ n ∧ n < 10000 ∧
        power ≤ Core.calcPower td alt sig_level (delta_rate * mean_transaction / sigma) n) := by
  constructor
  · have h := powerSearchGo_lt_iff
      (Core.calcPower td alt sig_level (delta_rate * size / sigma_rate.getD (0.3 * size)))
      power 9990 10
    simpa [Core.attribute_sample_size, Core.powerSearch] using h
  · have h := powerSearchGo_lt_iff
      (Core.calcPower td alt sig_level (delta_rate * mean_transaction / sigma))
      power 9990 10
    simpa [Core.attribute_sample_size_amount, Core.powerSearch] using h

/-- Counterexample to C4 as stated: with a t-distribution backend whose
cdf is constantly 1, the achieved power is constantly 0, the target 0.8
is never met, and `attribute_sample_size_amount` returns the bare integer
10000 — the capped value alone, with no flag or result variant
accompanying it. -/
theorem attribute_sample_size_amount_capped_bare :
    Core.attribute_sample_size_amount ⟨fun _ _ => 0, fun _ _ _ => 1⟩ 100000 50
      (1 / 20) 30 (1 / 20) (4 / 5) Core.Alternative.greater = 10000 := by
  have hnever : ∀ m, ¬ ((4 : ℝ) / 5 ≤
      Core.calcPower ⟨fun _ _ => 0, fun _ _ _ => 1⟩ Core.Alternative.greater (1 / 20)
        (1 / 20 * 50 / 30) m) := by
    intro m
    simp [Core.calcPower]
  have h := powerSearchGo_of_never
    (Core.calcPower ⟨fun _ _ => 0, fun _ _ _ => 1⟩ Core.Alternative.greater (1 / 20)
      (1 / 20 * 50 / 30)) (4 / 5) hnever 9990 10
  simpa [Core.attribute_sample_size_amount, Core.powerSearch] using h

/-- Claim C5 (amended): the core `discovery_sample_size` rejects every
out-of-range confidence or intolerable rate with an invalid-argument
error. -/
theorem core_discovery_rejects_out_of_range (c r : ℝ)
    (h : c ≤ 0 ∨ 1 ≤ c ∨ r ≤ 0 ∨ 1 ≤ r) :
    ∃ msg, Core.discovery_sample_size c r = Except.error msg := by
  rw [Core.discovery_sample_size]
  by_cases hr : r ≤ 0 ∨ 1 ≤ r
  · exact ⟨_, by rw [if_pos hr]⟩
  · have hc : c ≤ 0 ∨ 1 ≤ c := by tauto
    exact ⟨_, by rw [if_neg hr, if_pos hc]⟩

/-- Witness for the amended C5 at `confidence = 2`. -/
theorem core_discovery_rejects_out_of_range_witness :
    ((2 : ℝ) ≤ 0 ∨ (1 : ℝ) ≤ 2 ∨ (1 : ℝ) / 2 ≤ 0 ∨ (1 : ℝ) ≤ 1 / 2) ∧
    ∃ msg, Core.discovery_sample_size 2 (1 / 2) = Except.error msg :=
  ⟨by norm_num, core_discovery_rejects_out_of_range 2 (1 / 2) (by norm_num)⟩

/-- Counterexample to C5 as stated: the utils implementation of
`discovery_sample_size` performs no validation — at `confidence = 0`
(an out-of-range argument) it raises nothing and returns the sample
size 0. -/
theorem utils_discovery_no_validation :
    Utils.discovery_sample_size 0 (1 / 20) = 0 := by
  rw [Utils.discovery_sample_size]
  norm_num

/-- Claim C9: `monetary_unit_sample_size` returns
`ceil(population_value * r / tolerable_error)` where `r = -log(1 - confidence)`,
inflated by `(1 + expected_error_rate)` exactly when the expected error
rate is positive. -/
theorem monetary_unit_sample_size_formula (pv te c eer : ℝ)
    (hte : 0 < te) (hc0 : 0 < c) (hc1 : c < 1) (heer : 0 ≤ eer) :
    Utils.monetary_unit_sample_size pv te c eer =
      ⌈pv * (if 0 < eer then -Real.log (1 - c) * (1 + eer) else -Real.log (1 - c)) / te⌉ :=
  rfl

/-- Witness for C9 at the documented reference input
`(1000000, 50000, 0.95, 0)`. -/
theorem monetary_unit_sample_size_formula_witness :
    ((0 : ℝ) < 50000 ∧ (0 : ℝ) < 19 / 20 ∧ (19 : ℝ) / 20 < 1 ∧ (0 : ℝ) ≤ 0) ∧
    Utils.monetary_unit_sample_size 1000000 50000 (19 / 20) 0 =
      ⌈(1000000 : ℝ) *
        (if (0 : ℝ) < 0 then -Real.log (1 - 19 / 20) * (1 + 0)
         else -Real.log (1 - 19 / 20)) / 50000⌉ :=
  ⟨by norm_num,
   monetary_unit_sample_size_formula 1000000 50000 (19 / 20) 0 (by norm_num)
     (by norm_num) (by norm_num) (by norm_num)⟩

/-! ## Helper lemmas for outlier detection -/

/-- The indices produced by `origIndices` point, in order, at exactly the
present values of the sequence. -/
theorem origIndices_spec {α : Type} (data : List (Option α)) :
    List.Forall₂ (fun i v => data.getD i none = some v)
      (Statistics.origIndices data) (data.filterMap id) := by
  induction data with
  | nil => exact List.Forall₂.nil
  | cons x t ih =>
    cases x with
    | none =>
      simp only [Statistics.origIndices, List.filterMap_cons, id]
      rw [List.forall₂_map_left_iff]
      refine List.Forall₂.imp ?_ ih
      intro i v h
      simpa [List.getD_cons_succ] using h
    | some a =>
      simp only [Statistics.origIndices, List.filterMap_cons, id]
      refine List.Forall₂.cons rfl ?_
      rw [List.forall₂_map_left_iff]
      refine List.Forall₂.imp ?_ ih
      intro i v h
      simpa [List.getD_cons_succ] using h

/-- Applying the same boolean mask to two pointwise-related lists yields
pointwise-related selections. -/
theorem forall₂_applyMask {α β : Type} (P : α → β → Prop) :
    ∀ (m : List Bool) (l1 : List α) (l2 : List β), List.Forall₂ P l1 l2 →
      List.Forall₂ P (Statistics.applyMask m l1) (Statistics.applyMask m l2) := by
  intro m
  induction m with
  | nil =>
    intro l1 l2 h
    cases h with
    | nil => exact List.Forall₂.nil
    | cons ha ht => exact List.Forall₂.nil
  | cons b mt ih =>
    intro l1 l2 h
    cases h with
    | nil => exact List.Forall₂.nil
    | @cons a1 a2 t1 t2 ha ht =>
      cases b with
      | true =>
        simp only [Statistics.applyMask, if_pos]
        exact List.Forall₂.cons ha (ih _ _ ht)
      | false =>
        simp only [Statistics.applyMask, Bool.false_eq_true, if_neg, not_false_iff]
        exact ih _ _ ht

/-- Selecting a list by the mask of its own pointwise predicate is
filtering by that predicate. -/
theorem applyMask_map_eq_filter {α : Type} (f : α → Bool) (l : List α) :
    Statistics.applyMask (l.map f) l = l.filter f := by
  induction l with
  | nil => rfl
  | cons x t ih =>
    cases hfx : f x with
    | true => simp [Statistics.applyMask, hfx, ih]
    | false => simp [Statistics.applyMask, hfx, ih]

/-- Claim C8 (amended): for a pandas Series input — whether or not it
contains missing values — `detect_outliers` reports indices that point,
in the original caller-supplied sequence, at exactly the flagged values:
missing entries are dropped before the statistics are computed but the
original positional index is preserved.  (For a bare ndarray input this
fails; see the counterexample.) -/
theorem detect_outliers_series_indices_align (data : List (Option ℝ))
    (method : Statistics.OutlierMethod) (threshold : ℝ)
    (hmiss : none ∈ data) :
    List.Forall₂ (fun i v => data.getD i none = some v)
      (Statistics.detect_outliers_series data method threshold).outlier_indices
      (Statistics.detect_outliers_series data method threshold).outlier_values := by
  clear hmiss
  simp only [Statistics.detect_outliers_series]
  exact forall₂_applyMask _ _ _ _ (origIndices_spec data)

/-- Witness for the amended C8 on a two-element Series with one missing
value, under the IQR method. -/
theorem detect_outliers_series_indices_align_witness :
    (none ∈ ([none, some 1] : List (Option ℝ))) ∧
    List.Forall₂ (fun i v => ([none, some 1] : List (Option ℝ)).getD i none = some v)
      (Statistics.detect_outliers_series [none, some 1] Statistics.OutlierMethod.iqr
        (3 / 2)).outlier_indices
      (Statistics.detect_outliers_series [none, some 1] Statistics.OutlierMethod.iqr
        (3 / 2)).outlier_values :=
  ⟨List.mem_cons_self _ _,
   detect_outliers_series_indices_align [none, some 1] Statistics.OutlierMethod.iqr
     (3 / 2) (List.mem_cons_self _ _)⟩

/-- Counterexample to C8 as stated: on the ndarray input
`[nan, -1, 1]` with the z-score method and threshold `0.5`, both present
values are flagged, but the reported indices are `[0, 1]` — positions in
the missing-filtered array — while the flagged values sit at positions 1
and 2 of the original sequence; index 0 of the original sequence is the
missing entry. -/
theorem detect_outliers_array_misaligned :
    ¬ List.Forall₂
        (fun i v => ([none, some (-1), some 1] : List (Option ℝ)).getD i none = some v)
        (Statistics.detect_outliers_array [none, some (-1), some 1]
          Statistics.OutlierMethod.zscore (1 / 2)).outlier_indices
        (Statistics.detect_outliers_array [none, some (-1), some 1]
          Statistics.OutlierMethod.zscore (1 / 2)).outlier_values := by
  have hvals : (([none, some (-1), some 1] : List (Option ℝ)).filterMap id) = [-1, 1] := rfl
  have hmean : Statistics.listMean [(-1 : ℝ), 1] = 0 := by
    rw [Statistics.listMean]
    norm_num
  have hstd : Statistics.popStd [(-1 : ℝ), 1] = 1 := by
    rw [Statistics.popStd, hmean]
    norm_num
  have hmask : Statistics.outlierMask Statistics.OutlierMethod.zscore (1 / 2)
      [(-1 : ℝ), 1] = [true, true] := by
    simp only [Statistics.outlierMask, hmean, hstd, Statistics.floatAbsDivGT]
    norm_num
  intro h
  rw [Statistics.detect_outliers_array] at h
  simp only [hvals, hmask] at h
  have h0 : (([none, some (-1), some 1] : List (Option ℝ)).getD 0 none = some (-1)) := by
    rcases h with _ | ⟨h1, _⟩
    exact h1
  simp [List.getD] at h0

/-- Claim C10: with the modified z-score method, when the median absolute
deviation of the present values is zero the call still returns a result
(the division by zero follows numpy float semantics, `floatAbsDivGT`):
every present value different from the median is flagged and no value
equal to the median is flagged, for any positive threshold. -/
theorem modified_zscore_mad_zero (data : List (Option ℝ)) (t : ℝ) (ht : 0 < t)
    (hmad : Statistics.npMedian ((data.filterMap id).map
        (fun x => |x - Statistics.npMedian (data.filterMap id)|)) = 0) :
    ∀ v : ℝ,
      v ∈ (Statistics.detect_outliers_array data
            Statistics.OutlierMethod.modified_zscore t).outlier_values ↔
        (v ∈ data.filterMap id ∧ v ≠ Statistics.npMedian (data.filterMap id)) := by
  clear ht
  intro v
  rw [Statistics.detect_outliers_array]
  simp only [Statistics.outlierMask, hmad]
  rw [applyMask_map_eq_filter]
  rw [List.mem_filter]
  constructor
  · rintro ⟨hv, hf⟩
    refine ⟨hv, ?_⟩
    rw [Statistics.floatAbsDivGT, if_pos rfl] at hf
    by_cases hz : (6745 : ℝ) / 10000 * (v - Statistics.npMedian (data.filterMap id)) = 0
    · rw [if_pos hz] at hf
      exact absurd hf (by simp)
    · intro hveq
      exact hz (by rw [hveq]; ring)
  · rintro ⟨hv, hne⟩
    refine ⟨hv, ?_⟩
    rw [Statistics.floatAbsDivGT, if_pos rfl, if_neg]
    intro hz
    rcases mul_eq_zero.mp hz with h1 | h2
    · norm_num at h1
    · exact hne (by linarith [sub_eq_zero.mp h2])

/-- Witness for C10 at the data set `[1, 1, 1, 5]` (median 1, median
absolute deviation 0) with threshold 2. -/
theorem modified_zscore_mad_zero_witness :
    ((0 : ℝ) < 2 ∧
      Statistics.npMedian ((([some 1, some 1, some 1, some 5] :
          List (Option ℝ)).filterMap id).map
        (fun x => |x - Statistics.npMedian (([some 1, some 1, some 1, some 5] :
          List (Option ℝ)).filterMap id)|)) = 0) ∧
    (∀ v : ℝ,
      v ∈ (Statistics.detect_outliers_array [some 1, some 1, some 1, some 5]
            Statistics.OutlierMethod.modified_zscore 2).outlier_values ↔
        (v ∈ ([some 1, some 1, some 1, some 5] : List (Option ℝ)).filterMap id ∧
          v ≠ Statistics.npMedian (([some 1, some 1, some 1, some 5] :
            List (Option ℝ)).filterMap id))) := by
  have hfm : (([some 1, some 1, some 1, some 5] : List (Option ℝ)).filterMap id) =
      [1, 1, 1, 5] := rfl
  have hmed : Statistics.npMedian [(1 : ℝ), 1, 1, 5] = 1 := by
    rw [Statistics.npMedian]
    rw [List.Sorted.insertionSort_eq (by norm_num [List.sorted_cons])]
    norm_num [List.getD]
  have hmad : Statistics.npMedian (([(1 : ℝ), 1, 1, 5]).map
      (fun x => |x - Statistics.npMedian [(1 : ℝ), 1, 1, 5]|)) = 0 := by
    rw [hmed]
    have hdev : ([(1 : ℝ), 1, 1, 5]).map (fun x => |x - 1|) = [0, 0, 0, 4] := by
      norm_num
    rw [hdev, Statistics.npMedian]
    rw [List.Sorted.insertionSort_eq (by norm_num [List.sorted_cons])]
    norm_num [List.getD]
  have hmad' : Statistics.npMedian ((([some 1, some 1, some 1, some 5] :
      List (Option ℝ)).filterMap id).map
    (fun x => |x - Statistics.npMedian (([some 1, some 1, some 1, some 5] :
      List (Option ℝ)).filterMap id)|)) = 0 := by
    rw [hfm]
    exact hmad
  exact ⟨⟨by norm_num, hmad'⟩,
    modified_zscore_mad_zero [some 1, some 1, some 1, some 5] 2 (by norm_num) hmad'⟩

end AuditAnalytics
